import Mathlib

/-!
Shallow embedding of the Synacor virtual machine in `src/synacor.rs`.

Modelling conventions:
* Machine words (Rust `u16`) are `Nat`, with an explicit `% 65536` where the
  Rust code performs wrapping `u16` arithmetic (release-mode semantics) and
  `65535 - x` for `u16` bitwise negation `!x`.
* Rust `Vec` indexing (`regs[i]`, `bin[i]`, `ARITY[i]`) panics when the index
  is out of bounds; such panics, `Option::unwrap` on `None`, `%` by zero and
  the explicit `panic!` calls are modelled as `Except.error` with a `Fault`
  describing the panic.
* The stack `Vec<u16>` (push/pop at the end) is a `List` with its head at the
  stack top.  The pending-input `Vec<u8>` keeps the source's element order, so
  `Vec::pop` is `getLast?`/`dropLast`.
* `stdout` is an `output` byte list; `stdin` is an `inputChan` list of lines,
  one line handed over per `read_until('\n', ..)` call.
-/

namespace Synacor

/-- Panics / fatal conditions of the interpreter (`panic!`, `unwrap`,
out-of-bounds `Vec` indexing, `%` by zero). -/
inductive Fault where
  | invalidOpcode (code : Nat)
  | invalidNumber (x : Nat)
  | stackUnderflow
  | indexOutOfBounds
  | divisionByZero
  deriving DecidableEq, Repr

/-- The machine state: `pub struct Vm` plus the two I/O channels the Rust code
reaches through `print!` and `io::stdin`. -/
structure Vm where
  pc : Nat
  bin : List Nat
  regs : List Nat
  stack : List Nat
  input : List Nat
  inputChan : List (List Nat)
  output : List Nat
  deriving DecidableEq, Repr

/-- `enum State { Running, Halted }`. -/
inductive State where
  | Running
  | Halted
  deriving DecidableEq, Repr

/-- `enum Op`, one constructor per opcode, operands kept as raw words. -/
inductive Op where
  | Hlt
  | Set (a b : Nat)
  | Push (a : Nat)
  | Pop (a : Nat)
  | Eq (a b c : Nat)
  | Gt (a b c : Nat)
  | Jmp (a : Nat)
  | Jt (a b : Nat)
  | Jf (a b : Nat)
  | Add (a b c : Nat)
  | Mul (a b c : Nat)
  | Mod (a b c : Nat)
  | And (a b c : Nat)
  | Or (a b c : Nat)
  | Not (a b : Nat)
  | Rmem (a b : Nat)
  | Wmem (a b : Nat)
  | Call (a : Nat)
  | Ret
  | Out (a : Nat)
  | In (a : Nat)
  | Noop
  deriving DecidableEq, Repr

/-- `static ARITY: [usize; 22]`. -/
def ARITY : List Nat :=
  [0, 2, 1, 1, 3, 3, 1, 2, 2, 3, 3, 3, 3, 3, 2, 2, 2, 1, 0, 1, 1, 0]

/-- Rust `Vec`/array indexing `v[i]`: the value when in bounds, an
index-out-of-bounds panic otherwise. -/
def memGet (l : List Nat) (i : Nat) : Except Fault Nat :=
  match l.get? i with
  | some w => .ok w
  | none => .error .indexOutOfBounds

/-- `fn set(&mut self, reg: u16, val: u16)`:
`self.regs[reg as usize % 32768] = val % 32768`. -/
def Vm.set (vm : Vm) (reg val : Nat) : Except Fault Vm :=
  if reg % 32768 < vm.regs.length then
    .ok { vm with regs := vm.regs.set (reg % 32768) (val % 32768) }
  else
    .error .indexOutOfBounds

/-- The operand-resolution closure `v` in `run_op`: literals in `0...32767`
denote themselves, `32768...32775` denote `regs[x % 32768]`, anything else is
`panic!("invalid number ...")`. -/
def Vm.v (vm : Vm) (x : Nat) : Except Fault Nat :=
  if x ≤ 32767 then
    .ok x
  else if x ≤ 32775 then
    memGet vm.regs (x % 32768)
  else
    .error (.invalidNumber x)

/-- The closure `int`: `if b { 1 } else { 0 }`. -/
def int (b : Bool) : Nat := if b then 1 else 0

/-- The refill block at the top of the `In` arm: when the pending-input
buffer is empty, `read_until('\n', &mut self.input)` takes the next line
(all its bytes, newline included) from the terminal — or nothing at
end-of-stream — and the line is then reversed in place so that `Vec::pop`
yields its bytes left to right. -/
def Vm.refill (vm : Vm) : Vm :=
  if vm.input.isEmpty then
    match vm.inputChan with
    | [] => vm
    | line :: rest => { vm with input := line.reverse, inputChan := rest }
  else vm

/-- The body of `next_op` after the opcode word `code` at `vm.pc` has been
fetched: look up the arity (panicking for `code ≥ 22`, as `ARITY[b[i]]` does),
advance `pc` by `1 + ARITY[code]`, read the operand words verbatim, and build
the tagged instruction.  The final catch-all mirrors the
`panic!("unknown opcode")` arm (unreachable, since the `ARITY` lookup has
already panicked for any `code ≥ 22`). -/
def Vm.decodeRest (vm : Vm) (code : Nat) : Except Fault (Op × Vm) := do
  let i := vm.pc
  let b := vm.bin
  let ar ← memGet ARITY code
  let vm' : Vm := { vm with pc := i + 1 + ar }
  match code with
  | 0 => pure (Op.Hlt, vm')
  | 1 => pure (Op.Set (← memGet b (i+1)) (← memGet b (i+2)), vm')
  | 2 => pure (Op.Push (← memGet b (i+1)), vm')
  | 3 => pure (Op.Pop (← memGet b (i+1)), vm')
  | 4 => pure (Op.Eq (← memGet b (i+1)) (← memGet b (i+2)) (← memGet b (i+3)), vm')
  | 5 => pure (Op.Gt (← memGet b (i+1)) (← memGet b (i+2)) (← memGet b (i+3)), vm')
  | 6 => pure (Op.Jmp (← memGet b (i+1)), vm')
  | 7 => pure (Op.Jt (← memGet b (i+1)) (← memGet b (i+2)), vm')
  | 8 => pure (Op.Jf (← memGet b (i+1)) (← memGet b (i+2)), vm')
  | 9 => pure (Op.Add (← memGet b (i+1)) (← memGet b (i+2)) (← memGet b (i+3)), vm')
  | 10 => pure (Op.Mul (← memGet b (i+1)) (← memGet b (i+2)) (← memGet b (i+3)), vm')
  | 11 => pure (Op.Mod (← memGet b (i+1)) (← memGet b (i+2)) (← memGet b (i+3)), vm')
  | 12 => pure (Op.And (← memGet b (i+1)) (← memGet b (i+2)) (← memGet b (i+3)), vm')
  | 13 => pure (Op.Or (← memGet b (i+1)) (← memGet b (i+2)) (← memGet b (i+3)), vm')
  | 14 => pure (Op.Not (← memGet b (i+1)) (← memGet b (i+2)), vm')
  | 15 => pure (Op.Rmem (← memGet b (i+1)) (← memGet b (i+2)), vm')
  | 16 => pure (Op.Wmem (← memGet b (i+1)) (← memGet b (i+2)), vm')
  | 17 => pure (Op.Call (← memGet b (i+1)), vm')
  | 18 => pure (Op.Ret, vm')
  | 19 => pure (Op.Out (← memGet b (i+1)), vm')
  | 20 => pure (Op.In (← memGet b (i+1)), vm')
  | 21 => pure (Op.Noop, vm')
  | code => .error (.invalidOpcode code)

/-- `fn next_op(&mut self) -> Op`: fetch the opcode word at `pc` from the
*current* memory and decode. -/
def Vm.next_op (vm : Vm) : Except Fault (Op × Vm) :=
  match memGet vm.bin vm.pc with
  | .error e => .error e
  | .ok code => vm.decodeRest code

/-- `fn run_op(&mut self, op: Op) -> State`: one instruction's effect on the
machine state.  Fatal panics become `Except.error`; otherwise the returned
`State` says whether the run loop continues. -/
def Vm.run_op (vm : Vm) (op : Op) : Except Fault (State × Vm) := do
  match op with
  | .Hlt => pure (.Halted, vm)
  | .Set a b => do
      let x ← vm.v b
      let vm ← vm.set a x
      pure (.Running, vm)
  | .Push a => do
      let x ← vm.v a
      pure (.Running, { vm with stack := x :: vm.stack })
  | .Pop a =>
      match vm.stack with
      | [] => .error .stackUnderflow
      | x :: s => do
          let vm ← Vm.set { vm with stack := s } a x
          pure (.Running, vm)
  | .Eq a b c => do
      let x ← vm.v b
      let y ← vm.v c
      let vm ← vm.set a (int (x = y))
      pure (.Running, vm)
  | .Gt a b c => do
      let x ← vm.v b
      let y ← vm.v c
      let vm ← vm.set a (int (y < x))
      pure (.Running, vm)
  | .Jmp a => do
      let x ← vm.v a
      pure (.Running, { vm with pc := x })
  | .Jt a b => do
      let x ← vm.v a
      if x ≠ 0 then do
        let y ← vm.v b
        pure (.Running, { vm with pc := y })
      else
        pure (.Running, vm)
  | .Jf a b => do
      let x ← vm.v a
      if x = 0 then do
        let y ← vm.v b
        pure (.Running, { vm with pc := y })
      else
        pure (.Running, vm)
  | .Add a b c => do
      let x ← vm.v b
      let y ← vm.v c
      let vm ← vm.set a ((x + y) % 65536)
      pure (.Running, vm)
  | .Mul a b c => do
      let x ← vm.v b
      let y ← vm.v c
      let vm ← vm.set a ((x * y) % 65536)
      pure (.Running, vm)
  | .Mod a b c => do
      let x ← vm.v b
      let y ← vm.v c
      if y = 0 then
        .error .divisionByZero
      else do
        let vm ← vm.set a (x % y)
        pure (.Running, vm)
  | .And a b c => do
      let x ← vm.v b
      let y ← vm.v c
      let vm ← vm.set a (x &&& y)
      pure (.Running, vm)
  | .Or a b c => do
      let x ← vm.v b
      let y ← vm.v c
      let vm ← vm.set a (x ||| y)
      pure (.Running, vm)
  | .Not a b => do
      let x ← vm.v b
      let vm ← vm.set a (65535 - x)
      pure (.Running, vm)
  | .Rmem a b => do
      let x ← vm.v b
      let w ← memGet vm.bin x
      let vm ← vm.set a w
      pure (.Running, vm)
  | .Wmem a b => do
      let x ← vm.v a
      let y ← vm.v b
      if x < vm.bin.length then
        pure (.Running, { vm with bin := vm.bin.set x y })
      else
        .error .indexOutOfBounds
  | .Call a => do
      let x ← vm.v a
      pure (.Running, { vm with stack := (vm.pc % 65536) :: vm.stack, pc := x })
  | .Ret =>
      match vm.stack with
      | [] => pure (.Halted, vm)
      | addr :: s => pure (.Running, { vm with pc := addr, stack := s })
  | .Out a =>
      pure (.Running, { vm with output := vm.output ++ [a % 256] })
  | .In a =>
      match (vm.refill).input.getLast? with
      | none => pure (.Halted, vm.refill)
      | some c => do
          let vm2 ← Vm.set { vm.refill with input := (vm.refill).input.dropLast } a c
          pure (.Running, vm2)
  | .Noop => pure (.Running, vm)

/-- One iteration of the `run` loop: decode, then execute. -/
def Vm.step (vm : Vm) : Except Fault (State × Vm) := do
  let (op, vm1) ← vm.next_op
  vm1.run_op op

/-- Result of a fuelled run: either the machine halted gracefully, or the
fuel ran out with the machine still running. -/
inductive RunResult where
  | Halted (vm : Vm)
  | OutOfFuel (vm : Vm)
  deriving DecidableEq, Repr

/-- `pub fn run(&mut self)`: repeat `step` while the state is `Running`.  The
Rust loop may run forever, so the embedding takes explicit fuel. -/
def Vm.run (fuel : Nat) (vm : Vm) : Except Fault RunResult :=
  match fuel with
  | 0 => .ok (.OutOfFuel vm)
  | fuel + 1 =>
      match vm.step with
      | .error e => .error e
      | .ok (.Halted, vm1) => .ok (.Halted vm1)
      | .ok (.Running, vm1) => Vm.run fuel vm1

/-- `pub fn new`: the machine state right after loading a program image
(program counter 0, eight zeroed registers, empty stack and input buffer),
with `chan` the lines the terminal will provide. -/
def Vm.new (bin : List Nat) (chan : List (List Nat)) : Vm :=
  { pc := 0
    bin := bin
    regs := List.replicate 8 0
    stack := []
    input := []
    inputChan := chan
    output := [] }

/-- Verification harness: execute `n` consecutive `In` instructions with
destination operand `a` via `run_op`, recording after each one the byte just
delivered to the destination register.  Stops recording if an `In` halts. -/
def Vm.runIns (a : Nat) : Nat → Vm → Except Fault (List Nat × Vm)
  | 0, vm => .ok ([], vm)
  | n + 1, vm =>
      match vm.run_op (Op.In a) with
      | .error e => .error e
      | .ok (.Halted, vm') => .ok ([], vm')
      | .ok (.Running, vm') =>
          match vm'.regs.get? (a % 32768) with
          | none => .error .indexOutOfBounds
          | some c =>
              match Vm.runIns a n vm' with
              | .error e => .error e
              | .ok (cs, vmf) => .ok (c :: cs, vmf)

/-- Failing input for the `Out` claim: the two-word program `Out 32768` then
`Hlt`, with register 0 holding the character code 65. -/
def outBugVm : Vm :=
  { Vm.new [19, 32768, 0] [] with regs := [65, 0, 0, 0, 0, 0, 0, 0] }

/-- A one-word machine with one stack entry and one buffered input byte,
used to exercise the register-write bound on every writing opcode. -/
def c10vm : Vm := { Vm.new [0] [] with stack := [1], input := [10] }

/-!  Basic reduction lemmas for the `Except` monad and the small state
manipulation functions, shared by the claim proofs below. -/

theorem ok_bind {α β : Type} (a : α) (f : α → Except Fault β) :
    (Except.ok a : Except Fault α) >>= f = f a := rfl

theorem error_bind {α β : Type} (e : Fault) (f : α → Except Fault β) :
    (Except.error e : Except Fault α) >>= f = .error e := rfl

theorem pure_eq_ok {α : Type} (a : α) : (pure a : Except Fault α) = .ok a := rfl

theorem v_lit {vm : Vm} {z : Nat} (h : z ≤ 32767) : vm.v z = .ok z := by
  unfold Vm.v
  rw [if_pos h]

theorem v_reg {vm : Vm} {z : Nat} (h1 : 32768 ≤ z) (h2 : z ≤ 32775) :
    vm.v z = memGet vm.regs (z % 32768) := by
  unfold Vm.v
  rw [if_neg (by omega), if_pos h2]

theorem memGet_ok_iff {l : List Nat} {i w : Nat} :
    memGet l i = .ok w ↔ l.get? i = some w := by
  unfold memGet
  cases h : l.get? i <;> simp

theorem memGet_of_lt {l : List Nat} {i : Nat} (h : i < l.length) :
    memGet l i = .ok (l.get ⟨i, h⟩) := by
  rw [memGet_ok_iff]
  exact List.get?_eq_get h

theorem set_eq_ok {vm vm' : Vm} {r val : Nat} :
    vm.set r val = .ok vm' ↔
      r % 32768 < vm.regs.length ∧
      vm' = { vm with regs := vm.regs.set (r % 32768) (val % 32768) } := by
  unfold Vm.set
  split
  · constructor
    · intro h
      injection h with h
      exact ⟨by assumption, h.symm⟩
    · rintro ⟨h1, rfl⟩
      rfl
  · constructor
    · intro h
      cases h
    · rintro ⟨h1, rfl⟩
      exact absurd h1 (by assumption)

theorem set_of_lt {vm : Vm} {r : Nat} (val : Nat) (h : r % 32768 < vm.regs.length) :
    vm.set r val = .ok { vm with regs := vm.regs.set (r % 32768) (val % 32768) } := by
  rw [set_eq_ok]
  exact ⟨h, rfl⟩

theorem set_err {vm : Vm} {r : Nat} (val : Nat) (h : ¬ r % 32768 < vm.regs.length) :
    vm.set r val = .error .indexOutOfBounds := by
  unfold Vm.set
  rw [if_neg h]

theorem set_regs_bound {vm vm' : Vm} {r val : Nat} (h : vm.set r val = .ok vm')
    (hinv : ∀ x ∈ vm.regs, x < 32768) : ∀ x ∈ vm'.regs, x < 32768 := by
  rw [set_eq_ok] at h
  obtain ⟨-, rfl⟩ := h
  intro x hx
  rcases List.mem_or_eq_of_mem_set hx with h1 | h1
  · exact hinv x h1
  · subst h1
    exact Nat.mod_lt _ (by norm_num)

/-- Claim C1 (code bug in the `Out` arm): running `Out` with the
register-reference operand 32768 while register 0 holds 65 emits the byte
`32768 % 256 = 0` — the *raw* operand word reduced mod 256 — although the
operand-resolution rule gives `v(32768) = 65`, so the byte the claim
prescribes, `v(a) mod 256 = 65`, is not the byte emitted. -/
theorem C1_out_emits_raw_operand_byte :
    Vm.run 2 outBugVm = .ok (.Halted { outBugVm with pc := 3, output := [0] })
    ∧ outBugVm.v 32768 = .ok 65 ∧ (65 : Nat) % 256 = 65 ∧ (0 : Nat) ≠ 65 :=
  ⟨rfl, rfl, rfl, by decide⟩

/-- Claim C5: on an empty stack `Pop` faults with `StackUnderflow` while
`Ret` halts gracefully; the two run results are classified differently
(`Except.error` versus `Except.ok` with a `Halted` state). -/
theorem C5_pop_faults_ret_halts (vm : Vm) (a : Nat) (h : vm.stack = []) :
    vm.run_op (Op.Pop a) = .error .stackUnderflow
    ∧ vm.run_op Op.Ret = .ok (.Halted, vm)
    ∧ vm.run_op (Op.Pop a) ≠ vm.run_op Op.Ret := by
  have h1 : vm.run_op (Op.Pop a) = .error .stackUnderflow := by
    simp only [Vm.run_op, h]
  have h2 : vm.run_op Op.Ret = .ok (.Halted, vm) := by
    simp only [Vm.run_op, h, pure_eq_ok]
  refine ⟨h1, h2, ?_⟩
  rw [h1, h2]
  simp

/-- Witness for C5 at the freshly-loaded empty machine. -/
theorem C5_witness :
    (Vm.new [] []).run_op (Op.Pop 32768) = .error .stackUnderflow
    ∧ (Vm.new [] []).run_op Op.Ret = .ok (.Halted, Vm.new [] [])
    ∧ (Vm.new [] []).run_op (Op.Pop 32768) ≠ (Vm.new [] []).run_op Op.Ret :=
  C5_pop_faults_ret_halts (Vm.new [] []) 32768 rfl

theorem bind_eq_ok {α β : Type} {x : Except Fault α} {f : α → Except Fault β} {b : β}
    (h : (x >>= f) = .ok b) : ∃ a, x = .ok a ∧ f a = .ok b := by
  cases x with
  | error e => rw [error_bind] at h; cases h
  | ok a => rw [ok_bind] at h; exact ⟨a, rfl, h⟩

theorem ok_pair_inj {st₀ st : State} {vm₀ vm' : Vm}
    (h : (pure (st₀, vm₀) : Except Fault (State × Vm)) = .ok (st, vm')) :
    vm₀ = vm' := by
  rw [pure_eq_ok] at h
  injection h with h
  injection h with h1 h2

theorem set_regs_mem {vm vm' : Vm} {r val : Nat} (h : vm.set r val = .ok vm') :
    ∀ x ∈ vm'.regs, x ∈ vm.regs ∨ x < 32768 := by
  rw [set_eq_ok] at h
  obtain ⟨-, rfl⟩ := h
  intro x hx
  rcases List.mem_or_eq_of_mem_set hx with h1 | h1
  · exact .inl h1
  · exact .inr (h1 ▸ Nat.mod_lt _ (by norm_num))

theorem refill_regs (vm : Vm) : (vm.refill).regs = vm.regs := by
  unfold Vm.refill
  split
  · split <;> rfl
  · rfl

theorem decodeRest_ok {vm : Vm} {code : Nat} {op : Op} {vm₁ : Vm}
    (h : vm.decodeRest code = .ok (op, vm₁)) :
    ∃ ar, memGet ARITY code = .ok ar ∧ vm₁ = { vm with pc := vm.pc + 1 + ar } := by
  simp only [Vm.decodeRest] at h
  obtain ⟨ar, har, h⟩ := bind_eq_ok h
  refine ⟨ar, har, ?_⟩
  split at h
  all_goals repeat obtain ⟨_, _, h⟩ := bind_eq_ok h
  all_goals
    first
    | (rw [pure_eq_ok] at h
       injection h with h
       injection h with h1 h2
       exact h2.symm)
    | cases h

theorem next_op_ok {vm : Vm} {op : Op} {vm₁ : Vm}
    (h : vm.next_op = .ok (op, vm₁)) :
    ∃ code ar, memGet vm.bin vm.pc = .ok code ∧ memGet ARITY code = .ok ar ∧
      vm₁ = { vm with pc := vm.pc + 1 + ar } := by
  unfold Vm.next_op at h
  cases hc : memGet vm.bin vm.pc with
  | error e => rw [hc] at h; cases h
  | ok code =>
      rw [hc] at h
      obtain ⟨ar, har, hvm⟩ := decodeRest_ok h
      exact ⟨code, ar, rfl, har, hvm⟩

theorem run_op_regs_mem {vm : Vm} {op : Op} {st : State} {vm' : Vm}
    (h : vm.run_op op = .ok (st, vm')) :
    ∀ x ∈ vm'.regs, x ∈ vm.regs ∨ x < 32768 := by
  cases op <;> simp only [Vm.run_op] at h
  case Hlt =>
    cases ok_pair_inj h
    exact fun x hx => .inl hx
  case Set a b =>
    obtain ⟨xb, hvb, h⟩ := bind_eq_ok h
    obtain ⟨vm₂, hset, h⟩ := bind_eq_ok h
    cases ok_pair_inj h
    exact set_regs_mem hset
  case Push a =>
    obtain ⟨xa, hva, h⟩ := bind_eq_ok h
    cases ok_pair_inj h
    exact fun x hx => .inl hx
  case Pop a =>
    split at h
    · cases h
    · obtain ⟨vm₂, hset, h⟩ := bind_eq_ok h
      cases ok_pair_inj h
      intro x hx
      exact set_regs_mem hset x hx
  case Eq a b c =>
    obtain ⟨xb, hvb, h⟩ := bind_eq_ok h
    obtain ⟨xc, hvc, h⟩ := bind_eq_ok h
    obtain ⟨vm₂, hset, h⟩ := bind_eq_ok h
    cases ok_pair_inj h
    exact set_regs_mem hset
  case Gt a b c =>
    obtain ⟨xb, hvb, h⟩ := bind_eq_ok h
    obtain ⟨xc, hvc, h⟩ := bind_eq_ok h
    obtain ⟨vm₂, hset, h⟩ := bind_eq_ok h
    cases ok_pair_inj h
    exact set_regs_mem hset
  case Jmp a =>
    obtain ⟨xa, hva, h⟩ := bind_eq_ok h
    cases ok_pair_inj h
    exact fun x hx => .inl hx
  case Jt a b =>
    obtain ⟨xa, hva, h⟩ := bind_eq_ok h
    split at h
    · obtain ⟨xb, hvb, h⟩ := bind_eq_ok h
      cases ok_pair_inj h
      exact fun x hx => .inl hx
    · cases ok_pair_inj h
      exact fun x hx => .inl hx
  case Jf a b =>
    obtain ⟨xa, hva, h⟩ := bind_eq_ok h
    split at h
    · obtain ⟨xb, hvb, h⟩ := bind_eq_ok h
      cases ok_pair_inj h
      exact fun x hx => .inl hx
    · cases ok_pair_inj h
      exact fun x hx => .inl hx
  case Add a b c =>
    obtain ⟨xb, hvb, h⟩ := bind_eq_ok h
    obtain ⟨xc, hvc, h⟩ := bind_eq_ok h
    obtain ⟨vm₂, hset, h⟩ := bind_eq_ok h
    cases ok_pair_inj h
    exact set_regs_mem hset
  case Mul a b c =>
    obtain ⟨xb, hvb, h⟩ := bind_eq_ok h
    obtain ⟨xc, hvc, h⟩ := bind_eq_ok h
    obtain ⟨vm₂, hset, h⟩ := bind_eq_ok h
    cases ok_pair_inj h
    exact set_regs_mem hset
  case Mod a b c =>
    obtain ⟨xb, hvb, h⟩ := bind_eq_ok h
    obtain ⟨xc, hvc, h⟩ := bind_eq_ok h
    split at h
    · cases h
    · obtain ⟨vm₂, hset, h⟩ := bind_eq_ok h
      cases ok_pair_inj h
      exact set_regs_mem hset
  case And a b c =>
    obtain ⟨xb, hvb, h⟩ := bind_eq_ok h
    obtain ⟨xc, hvc, h⟩ := bind_eq_ok h
    obtain ⟨vm₂, hset, h⟩ := bind_eq_ok h
    cases ok_pair_inj h
    exact set_regs_mem hset
  case Or a b c =>
    obtain ⟨xb, hvb, h⟩ := bind_eq_ok h
    obtain ⟨xc, hvc, h⟩ := bind_eq_ok h
    obtain ⟨vm₂, hset, h⟩ := bind_eq_ok h
    cases ok_pair_inj h
    exact set_regs_mem hset
  case Not a b =>
    obtain ⟨xb, hvb, h⟩ := bind_eq_ok h
    obtain ⟨vm₂, hset, h⟩ := bind_eq_ok h
    cases ok_pair_inj h
    exact set_regs_mem hset
  case Rmem a b =>
    obtain ⟨xb, hvb, h⟩ := bind_eq_ok h
    obtain ⟨w, hw, h⟩ := bind_eq_ok h
    obtain ⟨vm₂, hset, h⟩ := bind_eq_ok h
    cases ok_pair_inj h
    exact set_regs_mem hset
  case Wmem a b =>
    obtain ⟨xa, hva, h⟩ := bind_eq_ok h
    obtain ⟨xb, hvb, h⟩ := bind_eq_ok h
    split at h
    · cases ok_pair_inj h
      exact fun x hx => .inl hx
    · cases h
  case Call a =>
    obtain ⟨xa, hva, h⟩ := bind_eq_ok h
    cases ok_pair_inj h
    exact fun x hx => .inl hx
  case Ret =>
    split at h
    · cases ok_pair_inj h
      exact fun x hx => .inl hx
    · cases ok_pair_inj h
      exact fun x hx => .inl hx
  case Out a =>
    cases ok_pair_inj h
    exact fun x hx => .inl hx
  case In a =>
    split at h
    · cases ok_pair_inj h
      exact fun x hx => .inl (refill_regs vm ▸ hx)
    · obtain ⟨vm₂, hset, h⟩ := bind_eq_ok h
      cases ok_pair_inj h
      intro x hx
      rcases set_regs_mem hset x hx with h1 | h1
      · exact .inl (refill_regs vm ▸ h1)
      · exact .inr h1
  case Noop =>
    cases ok_pair_inj h
    exact fun x hx => .inl hx

/-- Claim C2: a decode-execute step taken from a state whose registers all
lie in `[0, 32767]` leaves every register in `[0, 32767]`: decoding never
touches the registers, and every register write passes through `set`, which
reduces the stored value mod 32768. -/
theorem C2_registers_stay_below_32768 (vm : Vm) (st : State) (vm' : Vm)
    (hinv : ∀ r ∈ vm.regs, r < 32768)
    (h : vm.step = .ok (st, vm')) :
    ∀ r ∈ vm'.regs, r < 32768 := by
  unfold Vm.step at h
  obtain ⟨⟨op, vm₁⟩, hdec, hrun⟩ := bind_eq_ok h
  have hregs : vm₁.regs = vm.regs := by
    obtain ⟨code, ar, -, -, rfl⟩ := next_op_ok hdec
    rfl
  intro r hr
  rcases run_op_regs_mem hrun r hr with h1 | h1
  · exact hinv r (hregs ▸ h1)
  · exact h1

/-- Witness for C2: one `Noop` step on a freshly-loaded machine, register 0. -/
theorem C2_witness : (0 : Nat) < 32768 :=
  C2_registers_stay_below_32768 (Vm.new [21, 0] []) .Running
    { Vm.new [21, 0] [] with pc := 1 } (by decide) rfl 0 (by decide)

/-- Claim C3: `Not` with resolved source value `x` stores the 15-bit
complement `32767 - x` in the destination register, and a second `Not`
reading that register back into the same register restores `x`
(`Not` is self-inverse on `[0, 32767]`). -/
theorem C3_not_is_15_bit_complement (vm : Vm) (a b x : Nat)
    (hx : vm.v b = .ok x) (hxle : x ≤ 32767)
    (hlen : vm.regs.length = 8) (ha : a % 32768 < 8) :
    ∃ vm', vm.run_op (Op.Not a b) = .ok (.Running, vm')
      ∧ vm'.regs.get? (a % 32768) = some (32767 - x)
      ∧ ∃ vm'', vm'.run_op (Op.Not a (32768 + a % 32768)) = .ok (.Running, vm'')
          ∧ vm''.regs.get? (a % 32768) = some x := by
  have ha' : a % 32768 < vm.regs.length := by omega
  have hk : (65535 - x) % 32768 = 32767 - x := by
    have h1 : 65535 - x = 32768 + (32767 - x) := by omega
    rw [h1, Nat.add_mod_left, Nat.mod_eq_of_lt (by omega)]
  refine ⟨{ vm with regs := vm.regs.set (a % 32768) ((65535 - x) % 32768) }, ?_, ?_, ?_⟩
  · simp only [Vm.run_op, hx, ok_bind, set_of_lt _ ha', pure_eq_ok]
  · simp only [List.get?_set_eq_of_lt _ ha', hk]
  · have hzmod : (32768 + a % 32768) % 32768 = a % 32768 := by
      rw [Nat.add_mod_left, Nat.mod_mod_of_dvd _ dvd_rfl]
    have hv' : Vm.v { vm with regs := vm.regs.set (a % 32768) ((65535 - x) % 32768) }
        (32768 + a % 32768) = .ok ((65535 - x) % 32768) := by
      rw [v_reg (by omega) (by omega), hzmod, memGet_ok_iff]
      exact List.get?_set_eq_of_lt _ ha'
    have ha'' : a % 32768 <
        ({ vm with regs := vm.regs.set (a % 32768) ((65535 - x) % 32768) } : Vm).regs.length := by
      simpa using ha'
    have hk2 : (65535 - (65535 - x) % 32768) % 32768 = x := by
      rw [hk]
      have h2 : 65535 - (32767 - x) = 32768 + x := by omega
      rw [h2, Nat.add_mod_left, Nat.mod_eq_of_lt (by omega)]
    refine ⟨{ vm with regs := ((vm.regs.set (a % 32768) ((65535 - x) % 32768)).set (a % 32768) ((65535 - (65535 - x) % 32768) % 32768)) }, ?_, ?_⟩
    · simp only [Vm.run_op, hv', ok_bind, set_of_lt _ ha'', pure_eq_ok]
    · simp only [List.set_set, List.get?_set_eq_of_lt _ ha', hk2]

/-- Witness for C3: `Not r0 5` on a fresh machine, then `Not r0 r0`. -/
theorem C3_witness :
    ∃ vm', (Vm.new [] []).run_op (Op.Not 32768 5) = .ok (.Running, vm')
      ∧ vm'.regs.get? (32768 % 32768) = some (32767 - 5)
      ∧ ∃ vm'', vm'.run_op (Op.Not 32768 (32768 + 32768 % 32768)) = .ok (.Running, vm'')
          ∧ vm''.regs.get? (32768 % 32768) = some 5 :=
  C3_not_is_15_bit_complement (Vm.new [] []) 32768 5 5 rfl (by decide) (by decide) (by decide)

/-- Claim C4: with resolved operands `x, y ∈ [0, 32767]`, `Add` stores
`(x + y) mod 32768` and `Mul` stores `(x * y) mod 32768` in the destination
register (the intermediate wrapping `u16` product does not change the
result, since 32768 divides 65536). -/
theorem C4_add_mul_reduce_mod_32768 (vm : Vm) (a b c x y : Nat)
    (hx : vm.v b = .ok x) (hy : vm.v c = .ok y)
    (hxle : x ≤ 32767) (hyle : y ≤ 32767)
    (ha : a % 32768 < vm.regs.length) :
    (∃ vm', vm.run_op (Op.Add a b c) = .ok (.Running, vm')
        ∧ vm'.regs.get? (a % 32768) = some ((x + y) % 32768))
    ∧ (∃ vm', vm.run_op (Op.Mul a b c) = .ok (.Running, vm')
        ∧ vm'.regs.get? (a % 32768) = some ((x * y) % 32768)) := by
  have hdvd : (32768 : Nat) ∣ 65536 := ⟨2, rfl⟩
  constructor
  · refine ⟨{ vm with regs := vm.regs.set (a % 32768) ((x + y) % 65536 % 32768) }, ?_, ?_⟩
    · simp only [Vm.run_op, hx, hy, ok_bind, set_of_lt _ ha, pure_eq_ok]
    · simp only [List.get?_set_eq_of_lt _ ha, Nat.mod_mod_of_dvd _ hdvd]
  · refine ⟨{ vm with regs := vm.regs.set (a % 32768) ((x * y) % 65536 % 32768) }, ?_, ?_⟩
    · simp only [Vm.run_op, hx, hy, ok_bind, set_of_lt _ ha, pure_eq_ok]
    · simp only [List.get?_set_eq_of_lt _ ha, Nat.mod_mod_of_dvd _ hdvd]

/-- Witness for C4: `Add r0 3 5` and `Mul r0 3 5` on a fresh machine. -/
theorem C4_witness :
    (∃ vm', (Vm.new [] []).run_op (Op.Add 32768 3 5) = .ok (.Running, vm')
        ∧ vm'.regs.get? (32768 % 32768) = some ((3 + 5) % 32768))
    ∧ (∃ vm', (Vm.new [] []).run_op (Op.Mul 32768 3 5) = .ok (.Running, vm')
        ∧ vm'.regs.get? (32768 % 32768) = some ((3 * 5) % 32768)) :=
  C4_add_mul_reduce_mod_32768 (Vm.new [] []) 32768 3 5 3 5 rfl rfl
    (by decide) (by decide) (by decide)

/-- Claim C6: decoding and executing a `Call` found at address `p` pushes
`p + 2` — the address just past the two-word `Call` instruction, computed by
the decoder before the jump takes effect — and sets the program counter to
the resolved target; executing `Ret` on any state whose stack still starts
with that pushed word returns the program counter to exactly `p + 2`. -/
theorem C6_call_then_ret_resumes_after_call (vm : Vm) (p t T : Nat)
    (hpc : vm.pc = p)
    (hcode : memGet vm.bin p = .ok 17)
    (hoperand : memGet vm.bin (p + 1) = .ok t)
    (hT : vm.v t = .ok T)
    (hfit : p + 2 < 65536) :
    (vm.step = .ok (.Running, { vm with pc := T, stack := (p + 2) :: vm.stack }))
    ∧ (∀ vm₂ : Vm, vm₂.stack = (p + 2) :: vm.stack →
        vm₂.run_op Op.Ret = .ok (.Running, { vm₂ with pc := p + 2, stack := vm.stack })) := by
  have hmod : (p + 2) % 65536 = p + 2 := Nat.mod_eq_of_lt hfit
  constructor
  · have hv' : Vm.v { vm with pc := p + 2 } t = .ok T := hT
    simp only [Vm.step, Vm.next_op, hpc, hcode, Vm.decodeRest]
    have har : memGet ARITY 17 = .ok 1 := rfl
    simp only [hpc, har, ok_bind, hoperand, pure_eq_ok, Vm.run_op, hv', hmod]
  · intro vm₂ hstack
    simp only [Vm.run_op, hstack, pure_eq_ok]

/-- Witness for C6: `Call 3` at address 0, then `Ret` from the called code. -/
theorem C6_witness :
    ((Vm.new [17, 3, 0, 18, 0] []).step =
      .ok (.Running, { Vm.new [17, 3, 0, 18, 0] [] with pc := 3, stack := [2] }))
    ∧ (∀ vm₂ : Vm, vm₂.stack = 2 :: (Vm.new [17, 3, 0, 18, 0] []).stack →
        vm₂.run_op Op.Ret = .ok (.Running, { vm₂ with pc := 2, stack := (Vm.new [17, 3, 0, 18, 0] []).stack })) :=
  C6_call_then_ret_resumes_after_call (Vm.new [17, 3, 0, 18, 0] []) 0 3 3
    rfl rfl rfl rfl (by decide)

/-- Claim C7: `Wmem` with resolved address `A` and resolved value `x` stores
`x` at memory address `A`; afterwards `Rmem` from any operand resolving to
`A` stores `x mod 32768` in its destination register, and a decode whose
program counter sits at `A` fetches the freshly written word `x` as its
opcode (self-modifying code sees its own writes). -/
theorem C7_wmem_rmem_roundtrip (vm : Vm) (a b A x : Nat)
    (hA : vm.v a = .ok A) (hx : vm.v b = .ok x)
    (hbound : A < vm.bin.length) :
    ∃ vmw, vm.run_op (Op.Wmem a b) = .ok (.Running, vmw)
      ∧ vmw.bin.get? A = some x
      ∧ (∀ d b₂, vmw.v b₂ = .ok A → d % 32768 < vmw.regs.length →
          ∃ vmr, vmw.run_op (Op.Rmem d b₂) = .ok (.Running, vmr)
            ∧ vmr.regs.get? (d % 32768) = some (x % 32768))
      ∧ (∀ vm₂ : Vm, vm₂.bin = vmw.bin → vm₂.pc = A →
          vm₂.next_op = vm₂.decodeRest x) := by
  refine ⟨{ vm with bin := vm.bin.set A x }, ?_, ?_, ?_, ?_⟩
  · simp only [Vm.run_op, hA, hx, ok_bind, if_pos hbound, pure_eq_ok]
  · exact List.get?_set_eq_of_lt _ hbound
  · intro d b₂ hA₂ hd
    have hmg : memGet ({ vm with bin := vm.bin.set A x } : Vm).bin A = .ok x := by
      rw [memGet_ok_iff]
      exact List.get?_set_eq_of_lt _ hbound
    refine ⟨{ vm with bin := vm.bin.set A x, regs := vm.regs.set (d % 32768) (x % 32768) }, ?_, ?_⟩
    · simp only [Vm.run_op, hA₂, hmg, ok_bind, set_of_lt _ hd, pure_eq_ok]
    · exact List.get?_set_eq_of_lt _ hd
  · intro vm₂ hbin hpc
    have hmg : memGet vm₂.bin vm₂.pc = .ok x := by
      rw [hbin, hpc, memGet_ok_iff]
      exact List.get?_set_eq_of_lt _ hbound
    unfold Vm.next_op
    rw [hmg]

/-- Witness for C7: write 7 to address 1 of a three-word memory. -/
theorem C7_witness :
    ∃ vmw, (Vm.new [0, 0, 0] []).run_op (Op.Wmem 1 7) = .ok (.Running, vmw)
      ∧ vmw.bin.get? 1 = some 7
      ∧ (∀ d b₂, vmw.v b₂ = .ok 1 → d % 32768 < vmw.regs.length →
          ∃ vmr, vmw.run_op (Op.Rmem d b₂) = .ok (.Running, vmr)
            ∧ vmr.regs.get? (d % 32768) = some (7 % 32768))
      ∧ (∀ vm₂ : Vm, vm₂.bin = vmw.bin → vm₂.pc = 1 →
          vm₂.next_op = vm₂.decodeRest 7) :=
  C7_wmem_rmem_roundtrip (Vm.new [0, 0, 0] []) 1 7 1 7 rfl rfl (by decide)

theorem runIns_from_reversed_buffer (a : Nat) (M : List Nat) :
    ∀ vm : Vm, vm.regs.length = 8 → a % 32768 < 8 →
      vm.input = M.reverse → (∀ c ∈ M, c < 256) →
      ∃ vmf, Vm.runIns a M.length vm = .ok (M, vmf)
        ∧ vmf.input = [] ∧ vmf.inputChan = vm.inputChan ∧ vmf.regs.length = 8 := by
  induction M with
  | nil =>
      intro vm hlen ha hin hb
      exact ⟨vm, rfl, hin, rfl, hlen⟩
  | cons c t ih =>
      intro vm hlen ha hin hb
      have hne' : vm.input.isEmpty = false := by
        rw [hin]
        simp
      have hrefill : vm.refill = vm := by
        unfold Vm.refill
        rw [hne']
        rfl
      have hset : Vm.set { vm with input := t.reverse } a c = .ok { vm with input := t.reverse, regs := vm.regs.set (a % 32768) (c % 32768) } := by
        apply set_of_lt
        show a % 32768 < vm.regs.length
        omega
      have hstep : vm.run_op (Op.In a) = .ok (.Running, { vm with input := t.reverse, regs := vm.regs.set (a % 32768) (c % 32768) }) := by
        simp only [Vm.run_op, hrefill, hin, List.reverse_cons, List.getLast?_concat,
          List.dropLast_concat, hset, ok_bind, pure_eq_ok]
      have hc : c % 32768 = c := Nat.mod_eq_of_lt (by have := hb c (by simp); omega)
      have hget : ({ vm with input := t.reverse, regs := vm.regs.set (a % 32768) (c % 32768) } : Vm).regs.get? (a % 32768) = some c := by
        have ha' : a % 32768 < vm.regs.length := by omega
        simp only [List.get?_set_eq_of_lt _ ha', hc]
      obtain ⟨vmf, hrec, hinp, hchan, hlenf⟩ :=
        ih { vm with input := t.reverse, regs := vm.regs.set (a % 32768) (c % 32768) }
          (by simp [hlen]) ha rfl (fun e he => hb e (by simp [he]))
      refine ⟨vmf, ?_, hinp, hchan, hlenf⟩
      show Vm.runIns a (t.length + 1) vm = .ok (c :: t, vmf)
      simp only [Vm.runIns, hstep, hget, hrec]

/-- Claim C8: with an empty buffer and the channel about to yield the line
`L` (newline included, hence nonempty, all bytes below 256), `L.length`
consecutive `In` instructions deliver exactly the bytes of `L` in original
left-to-right order, consuming exactly one line from the channel; and an
`In` executed while the buffer is nonempty never touches the channel. -/
theorem C8_in_consumes_line_bytes_in_order (vm : Vm) (a : Nat) (L : List Nat)
    (rest : List (List Nat))
    (hlen : vm.regs.length = 8) (ha : a % 32768 < 8)
    (hemp : vm.input = []) (hchan : vm.inputChan = L :: rest)
    (hne : L ≠ []) (hbytes : ∀ c ∈ L, c < 256) :
    (∃ vmf, Vm.runIns a L.length vm = .ok (L, vmf)
        ∧ vmf.input = [] ∧ vmf.inputChan = rest)
    ∧ (∀ vm₂ : Vm, vm₂.input ≠ [] → ∀ st vm₃,
        vm₂.run_op (Op.In a) = .ok (st, vm₃) → vm₃.inputChan = vm₂.inputChan) := by
  constructor
  · obtain ⟨c, t, rfl⟩ : ∃ c t, L = c :: t := by
      cases L with
      | nil => exact absurd rfl hne
      | cons c t => exact ⟨c, t, rfl⟩
    have hrefill : vm.refill = { vm with input := (c :: t).reverse, inputChan := rest } := by
      unfold Vm.refill
      rw [hemp, hchan]
      rfl
    have hset : Vm.set { vm with input := t.reverse, inputChan := rest } a c = .ok { vm with input := t.reverse, inputChan := rest, regs := vm.regs.set (a % 32768) (c % 32768) } := by
      apply set_of_lt
      show a % 32768 < vm.regs.length
      omega
    have hstep : vm.run_op (Op.In a) = .ok (.Running, { vm with input := t.reverse, inputChan := rest, regs := vm.regs.set (a % 32768) (c % 32768) }) := by
      simp only [Vm.run_op, hrefill, List.reverse_cons, List.getLast?_concat,
        List.dropLast_concat, hset, ok_bind, pure_eq_ok]
    have hc : c % 32768 = c := Nat.mod_eq_of_lt (by have := hbytes c (by simp); omega)
    have hget : ({ vm with input := t.reverse, inputChan := rest, regs := vm.regs.set (a % 32768) (c % 32768) } : Vm).regs.get? (a % 32768) = some c := by
      have ha' : a % 32768 < vm.regs.length := by omega
      simp only [List.get?_set_eq_of_lt _ ha', hc]
    obtain ⟨vmf, hrec, hinp, hchanf, hlenf⟩ :=
      runIns_from_reversed_buffer a t
        { vm with input := t.reverse, inputChan := rest, regs := vm.regs.set (a % 32768) (c % 32768) }
        (by simp [hlen]) ha rfl (fun e he => hbytes e (by simp [he]))
    refine ⟨vmf, ?_, hinp, hchanf⟩
    show Vm.runIns a (t.length + 1) vm = .ok (c :: t, vmf)
    simp only [Vm.runIns, hstep, hget, hrec]
  · intro vm₂ hne₂ st vm₃ h
    have hrefill : vm₂.refill = vm₂ := by
      unfold Vm.refill
      cases h' : vm₂.input with
      | nil => exact absurd h' hne₂
      | cons i0 is => rfl
    simp only [Vm.run_op, hrefill] at h
    cases hl : vm₂.input.getLast? with
    | none =>
        rw [hl] at h
        cases ok_pair_inj h
        rfl
    | some c0 =>
        rw [hl] at h
        obtain ⟨vm₄, hset, h⟩ := bind_eq_ok h
        cases ok_pair_inj h
        rw [set_eq_ok] at hset
        obtain ⟨-, rfl⟩ := hset
        rfl

theorem v_error_invalidNumber {vm : Vm} {z : Nat} {e : Fault}
    (hlen : vm.regs.length = 8) (h : vm.v z = .error e) :
    e = .invalidNumber z := by
  unfold Vm.v at h
  split at h
  · cases h
  · split at h
    · have hidx : z % 32768 < vm.regs.length := by omega
      rw [memGet_of_lt hidx] at h
      cases h
    · injection h with h
      exact h.symm

/-- Claim C9: `Mod` faults with `DivisionByZero` exactly when the resolved
divisor is 0; with a nonzero resolved divisor (and a valid destination) it
stores the remainder of `v(b)` by `v(c)`; and any faulting step makes the
run loop return that fault at once, executing no further instruction. -/
theorem C9_mod_division_by_zero (vm : Vm) (a b c x : Nat)
    (hlen : vm.regs.length = 8)
    (hx : vm.v b = .ok x) :
    (vm.run_op (Op.Mod a b c) = .error .divisionByZero ↔ vm.v c = .ok 0)
    ∧ (∀ y, vm.v c = .ok y → y ≠ 0 → y ≤ 32767 → a % 32768 < 8 →
        ∃ vm', vm.run_op (Op.Mod a b c) = .ok (.Running, vm')
          ∧ vm'.regs.get? (a % 32768) = some (x % y))
    ∧ (∀ (e : Fault) (n : Nat), vm.step = .error e → vm.run (n + 1) = .error e) := by
  refine ⟨⟨?_, ?_⟩, ?_, ?_⟩
  · intro h
    cases hvc : vm.v c with
    | error e =>
        have he : e = .invalidNumber c := v_error_invalidNumber hlen hvc
        rw [show vm.run_op (Op.Mod a b c) = .error e by
          simp only [Vm.run_op, hx, hvc, ok_bind, error_bind]] at h
        injection h with h
        rw [he] at h
        cases h
    | ok y =>
        by_cases hy : y = 0
        · rw [hy]
        · by_cases hidx : a % 32768 < vm.regs.length
          · rw [show vm.run_op (Op.Mod a b c) = .ok (.Running, { vm with regs := vm.regs.set (a % 32768) (x % y % 32768) }) by
              simp only [Vm.run_op, hx, hvc, ok_bind, if_neg hy, set_of_lt _ hidx, pure_eq_ok]] at h
            cases h
          · rw [show vm.run_op (Op.Mod a b c) = .error .indexOutOfBounds by
              simp only [Vm.run_op, hx, hvc, ok_bind, if_neg hy, set_err _ hidx, error_bind]] at h
            injection h with h
            cases h
  · intro hvc
    simp only [Vm.run_op, hx, hvc, ok_bind]
    simp
  · intro y hvc hy hy32 ha
    have hidx : a % 32768 < vm.regs.length := by omega
    have hrem : x % y % 32768 = x % y := by
      have : x % y < y := Nat.mod_lt _ (by omega)
      exact Nat.mod_eq_of_lt (by omega)
    refine ⟨{ vm with regs := vm.regs.set (a % 32768) (x % y % 32768) }, ?_, ?_⟩
    · simp only [Vm.run_op, hx, hvc, ok_bind, if_neg hy, set_of_lt _ hidx, pure_eq_ok]
    · simp only [List.get?_set_eq_of_lt _ hidx, hrem]
  · intro e n h
    simp only [Vm.run, h]

/-- Witness for C9: `Mod r0 13 5` on a fresh machine stores `13 % 5`. -/
theorem C9_witness :
    ((Vm.new [] []).run_op (Op.Mod 32768 13 5) = .error .divisionByZero ↔ (Vm.new [] []).v 5 = .ok 0)
    ∧ (∀ y, (Vm.new [] []).v 5 = .ok y → y ≠ 0 → y ≤ 32767 → 32768 % 32768 < 8 →
        ∃ vm', (Vm.new [] []).run_op (Op.Mod 32768 13 5) = .ok (.Running, vm')
          ∧ vm'.regs.get? (32768 % 32768) = some (13 % y))
    ∧ (∀ (e : Fault) (n : Nat), (Vm.new [] []).step = .error e → (Vm.new [] []).run (n + 1) = .error e) :=
  C9_mod_division_by_zero (Vm.new [] []) 32768 13 5 13 (by decide) rfl

/-- Witness for C8: the line "h\n" (bytes 104, 10) read by two `In r0`. -/
theorem C8_witness :
    (∃ vmf, Vm.runIns 32768 ([104, 10] : List Nat).length (Vm.new [] [[104, 10]])
        = .ok ([104, 10], vmf) ∧ vmf.input = [] ∧ vmf.inputChan = [])
    ∧ (∀ vm₂ : Vm, vm₂.input ≠ [] → ∀ st vm₃,
        vm₂.run_op (Op.In 32768) = .ok (st, vm₃) → vm₃.inputChan = vm₂.inputChan) :=
  C8_in_consumes_line_bytes_in_order (Vm.new [] [[104, 10]]) 32768 [104, 10] []
    (by decide) (by decide) rfl rfl (by decide) (by decide)

/-- Claim C10: for every register-writing instruction (`Set`, `Pop`, `Eq`,
`Gt`, `Add`, `Mul`, `Mod`, `And`, `Or`, `Not`, `Rmem`, `In`), when the other
preconditions of the instruction hold, the register write faults with an
index-out-of-bounds panic exactly when the destination operand mod 32768 is
8 or more, and succeeds when it is in `[0, 7]`. -/
theorem C10_register_write_index_bound (vm : Vm) (d b c : Nat)
    (hlen : vm.regs.length = 8)
    (hb : b ≤ 32767) (hc : c ≤ 32767) (hc0 : c ≠ 0)
    (hbmem : b < vm.bin.length)
    (hstack : vm.stack ≠ []) (hinput : vm.input ≠ []) :
    (8 ≤ d % 32768 →
      vm.run_op (Op.Set d b) = .error .indexOutOfBounds
      ∧ vm.run_op (Op.Pop d) = .error .indexOutOfBounds
      ∧ vm.run_op (Op.Eq d b c) = .error .indexOutOfBounds
      ∧ vm.run_op (Op.Gt d b c) = .error .indexOutOfBounds
      ∧ vm.run_op (Op.Add d b c) = .error .indexOutOfBounds
      ∧ vm.run_op (Op.Mul d b c) = .error .indexOutOfBounds
      ∧ vm.run_op (Op.Mod d b c) = .error .indexOutOfBounds
      ∧ vm.run_op (Op.And d b c) = .error .indexOutOfBounds
      ∧ vm.run_op (Op.Or d b c) = .error .indexOutOfBounds
      ∧ vm.run_op (Op.Not d b) = .error .indexOutOfBounds
      ∧ vm.run_op (Op.Rmem d b) = .error .indexOutOfBounds
      ∧ vm.run_op (Op.In d) = .error .indexOutOfBounds)
    ∧ (d % 32768 < 8 →
      (∃ vm', vm.run_op (Op.Set d b) = .ok (.Running, vm'))
      ∧ (∃ vm', vm.run_op (Op.Pop d) = .ok (.Running, vm'))
      ∧ (∃ vm', vm.run_op (Op.Eq d b c) = .ok (.Running, vm'))
      ∧ (∃ vm', vm.run_op (Op.Gt d b c) = .ok (.Running, vm'))
      ∧ (∃ vm', vm.run_op (Op.Add d b c) = .ok (.Running, vm'))
      ∧ (∃ vm', vm.run_op (Op.Mul d b c) = .ok (.Running, vm'))
      ∧ (∃ vm', vm.run_op (Op.Mod d b c) = .ok (.Running, vm'))
      ∧ (∃ vm', vm.run_op (Op.And d b c) = .ok (.Running, vm'))
      ∧ (∃ vm', vm.run_op (Op.Or d b c) = .ok (.Running, vm'))
      ∧ (∃ vm', vm.run_op (Op.Not d b) = .ok (.Running, vm'))
      ∧ (∃ vm', vm.run_op (Op.Rmem d b) = .ok (.Running, vm'))
      ∧ (∃ vm', vm.run_op (Op.In d) = .ok (.Running, vm'))) := by
  obtain ⟨s0, s, hs⟩ : ∃ s0 s, vm.stack = s0 :: s := by
    cases h' : vm.stack with
    | nil => exact absurd h' hstack
    | cons s0 s => exact ⟨s0, s, rfl⟩
  obtain ⟨i0, is, hi⟩ : ∃ i0 is, vm.input = i0 :: is := by
    cases h' : vm.input with
    | nil => exact absurd h' hinput
    | cons i0 is => exact ⟨i0, is, rfl⟩
  have hrefill : vm.refill = vm := by
    unfold Vm.refill
    rw [hi]
    rfl
  obtain ⟨c0, hgl⟩ : ∃ c0, vm.input.getLast? = some c0 := by
    rw [hi]
    cases h' : (i0 :: is).getLast? with
    | none =>
        rw [List.getLast?_eq_none_iff] at h'
        cases h'
    | some c0 => exact ⟨c0, rfl⟩
  have hmem : memGet vm.bin b = .ok (vm.bin.get ⟨b, hbmem⟩) := memGet_of_lt hbmem
  constructor
  · intro hd
    have herr : ∀ (w : Vm), w.regs = vm.regs → ∀ val, w.set d val = .error .indexOutOfBounds := by
      intro w hw val
      apply set_err
      rw [hw, hlen]
      omega
    refine ⟨?_, ?_, ?_, ?_, ?_, ?_, ?_, ?_, ?_, ?_, ?_, ?_⟩
    all_goals
      simp only [Vm.run_op, v_lit hb, v_lit hc, ok_bind, hs, hrefill, hgl,
        if_neg hc0, hmem, herr, error_bind]
  · intro hd
    have hok : ∀ (w : Vm), w.regs = vm.regs →
        ∀ val, w.set d val = .ok { w with regs := w.regs.set (d % 32768) (val % 32768) } := by
      intro w hw val
      apply set_of_lt
      rw [hw, hlen]
      omega
    refine ⟨⟨{ vm with regs := vm.regs.set (d % 32768) (b % 32768) }, ?_⟩,
      ⟨{ vm with stack := s, regs := vm.regs.set (d % 32768) (s0 % 32768) }, ?_⟩,
      ⟨{ vm with regs := vm.regs.set (d % 32768) (int (b = c) % 32768) }, ?_⟩,
      ⟨{ vm with regs := vm.regs.set (d % 32768) (int (c < b) % 32768) }, ?_⟩,
      ⟨{ vm with regs := vm.regs.set (d % 32768) ((b + c) % 65536 % 32768) }, ?_⟩,
      ⟨{ vm with regs := vm.regs.set (d % 32768) ((b * c) % 65536 % 32768) }, ?_⟩,
      ⟨{ vm with regs := vm.regs.set (d % 32768) (b % c % 32768) }, ?_⟩,
      ⟨{ vm with regs := vm.regs.set (d % 32768) ((b &&& c) % 32768) }, ?_⟩,
      ⟨{ vm with regs := vm.regs.set (d % 32768) ((b ||| c) % 32768) }, ?_⟩,
      ⟨{ vm with regs := vm.regs.set (d % 32768) ((65535 - b) % 32768) }, ?_⟩,
      ⟨{ vm with regs := vm.regs.set (d % 32768) (vm.bin.get ⟨b, hbmem⟩ % 32768) }, ?_⟩,
      ⟨{ vm with input := vm.input.dropLast, regs := vm.regs.set (d % 32768) (c0 % 32768) }, ?_⟩⟩
    all_goals
      simp only [Vm.run_op, v_lit hb, v_lit hc, ok_bind, hs, hrefill, hgl,
        if_neg hc0, hmem, hok, pure_eq_ok]

/-- Witness for C10 with destination operand 7 (a valid register index),
source operands 0 and 1. -/
theorem C10_witness :
    (8 ≤ 7 % 32768 →
      c10vm.run_op (Op.Set 7 0) = .error .indexOutOfBounds
      ∧ c10vm.run_op (Op.Pop 7) = .error .indexOutOfBounds
      ∧ c10vm.run_op (Op.Eq 7 0 1) = .error .indexOutOfBounds
      ∧ c10vm.run_op (Op.Gt 7 0 1) = .error .indexOutOfBounds
      ∧ c10vm.run_op (Op.Add 7 0 1) = .error .indexOutOfBounds
      ∧ c10vm.run_op (Op.Mul 7 0 1) = .error .indexOutOfBounds
      ∧ c10vm.run_op (Op.Mod 7 0 1) = .error .indexOutOfBounds
      ∧ c10vm.run_op (Op.And 7 0 1) = .error .indexOutOfBounds
      ∧ c10vm.run_op (Op.Or 7 0 1) = .error .indexOutOfBounds
      ∧ c10vm.run_op (Op.Not 7 0) = .error .indexOutOfBounds
      ∧ c10vm.run_op (Op.Rmem 7 0) = .error .indexOutOfBounds
      ∧ c10vm.run_op (Op.In 7) = .error .indexOutOfBounds)
    ∧ (7 % 32768 < 8 →
      (∃ vm', c10vm.run_op (Op.Set 7 0) = .ok (.Running, vm'))
      ∧ (∃ vm', c10vm.run_op (Op.Pop 7) = .ok (.Running, vm'))
      ∧ (∃ vm', c10vm.run_op (Op.Eq 7 0 1) = .ok (.Running, vm'))
      ∧ (∃ vm', c10vm.run_op (Op.Gt 7 0 1) = .ok (.Running, vm'))
      ∧ (∃ vm', c10vm.run_op (Op.Add 7 0 1) = .ok (.Running, vm'))
      ∧ (∃ vm', c10vm.run_op (Op.Mul 7 0 1) = .ok (.Running, vm'))
      ∧ (∃ vm', c10vm.run_op (Op.Mod 7 0 1) = .ok (.Running, vm'))
      ∧ (∃ vm', c10vm.run_op (Op.And 7 0 1) = .ok (.Running, vm'))
      ∧ (∃ vm', c10vm.run_op (Op.Or 7 0 1) = .ok (.Running, vm'))
      ∧ (∃ vm', c10vm.run_op (Op.Not 7 0) = .ok (.Running, vm'))
      ∧ (∃ vm', c10vm.run_op (Op.Rmem 7 0) = .ok (.Running, vm'))
      ∧ (∃ vm', c10vm.run_op (Op.In 7) = .ok (.Running, vm'))) :=
  C10_register_write_index_bound c10vm 7 0 1 (by decide) (by decide) (by decide)
    (by decide) (by decide) (by decide) (by decide)

end Synacor
